import Mathlib

/-!
Verification of subberthehut (an OpenSubtitles.org command-line downloader,
single C source file `subberthehut.c`) against its natural-language
specification.  The C code is shallowly embedded below: files are lists of
byte values (`List Nat`, each < 256), strings are `List Char` or lists of
byte values, 64-bit unsigned arithmetic is `Nat` with explicit `% 2 ^ 64`,
and the external collaborators (the XML-RPC service, stdin, zlib's
`inflate`) are parameters of the embedded functions.
-/

namespace Sth

/-! ## Fingerprinter: `get_hash_and_filesize` (subberthehut.c lines 125-135)

The C code reads the file as consecutive 8-byte words (`fread` into a
`uint64_t`, little-endian on the platforms the program targets), summing
them into the hash with 64-bit wraparound.  A file is a `List Nat` of its
bytes. -/

/-- Little-endian 8-byte word starting at position `p` of the file. -/
def wordAt (d : List Nat) (p : Nat) : Nat :=
  d.getD p 0 + d.getD (p + 1) 0 * 256 + d.getD (p + 2) 0 * 256 ^ 2 +
  d.getD (p + 3) 0 * 256 ^ 3 + d.getD (p + 4) 0 * 256 ^ 4 +
  d.getD (p + 5) 0 * 256 ^ 5 + d.getD (p + 6) 0 * 256 ^ 6 +
  d.getD (p + 7) 0 * 256 ^ 7

/-- One hashing loop of `get_hash_and_filesize`:
`for (tmp = 0, i = 0; i < 65536/8 && fread(&tmp, 8, 1, handle); hash += tmp, i++);`
`k` is the remaining iteration budget (65536/8 = 8192 at the top call),
`p` the current file position.  An `fread` of one full 8-byte word succeeds
exactly when `p + 8 ≤ d.length`.  Returns the word sum and the file
position after the last successful read (on a short read glibc may advance
the position up to EOF; only `d.length - p < 8` matters afterwards, which
holds either way). -/
def sumWords (d : List Nat) : Nat → Nat → Nat × Nat
  | 0, p => (0, p)
  | k + 1, p =>
    if p + 8 ≤ d.length then
      let rest := sumWords d k (p + 8)
      (wordAt d p + rest.1, rest.2)
    else (0, p)

/-- Embedding of `get_hash_and_filesize` (lines 125-135).  The second seek is
`fseek(handle, (*filesize - 65536) > 0 ? (*filesize - 65536) : 0, SEEK_SET)`
where `*filesize` is `uint64_t`: the subtraction wraps modulo 2^64, so the
`> 0` test is false only for `*filesize == 65536`; for `*filesize < 65536`
the wrapped value, converted to the signed `long` parameter of `fseek`, is
negative, `fseek` fails with EINVAL and the file position is unchanged, so
the second loop reads nothing.  Returns `(hash, filesize)`. -/
def get_hash_and_filesize (d : List Nat) : Nat × Nat :=
  let filesize := d.length
  let first := sumWords d 8192 0
  let target : Nat :=
    if filesize = 65536 then 0
    else if 65536 < filesize then filesize - 65536
    else first.2
  let second := sumWords d 8192 target
  ((filesize + first.1 + second.1) % 2 ^ 64, filesize)

/-! ## Output-path derivation: `get_sub_path` (lines 308-350) -/

/-- Index of the last occurrence of `c` in `s` (the embedding of
`strrchr`), `none` when absent. -/
def lastIndexOf : List Char → Char → Option Nat
  | [], _ => none
  | a :: as, c =>
    match lastIndexOf as c with
    | some j => some (j + 1)
    | none => if a = c then some 0 else none

/-- Embedding of `get_sub_path` (lines 308-350).  With `same_name` the input
path is truncated at its last `.` (or, with no `.`, at `strlen(filepath)-1`)
and the subtitle's extension (from its last `.`, default `".srt"`) is
appended; otherwise the subtitle's file name is appended to the input
path's directory part (up to and including the last `/`), or used alone
when the path has no `/`.  `malloc` failure is not modelled (the function
is total). -/
def get_sub_path (same_name : Bool) (filepath sub_filename : List Char) : List Char :=
  if same_name then
    let sub_ext : List Char :=
      match lastIndexOf sub_filename '.' with
      | none => '.' :: 's' :: 'r' :: 't' :: []
      | some j => sub_filename.drop j
    let index : Nat :=
      match lastIndexOf filepath '.' with
      | none => filepath.length - 1
      | some j => j
    filepath.take index ++ sub_ext
  else
    match lastIndexOf filepath '/' with
    | none => sub_filename
    | some j => filepath.take (j + 1) ++ sub_filename

/-! ## Spec-side output-path functions (from the spec's words, §4.4, for the
refinement statement of claim C6) -/

/-- Spec: "place the subtitle in the same directory as the input file":
the directory part of a path, up to and including the last `/`. -/
def specDirPart (p : List Char) : List Char :=
  match lastIndexOf p '/' with
  | none => []
  | some j => p.take (j + 1)

/-- Spec: "substring after the last `.`" of a name, kept with its dot;
default `.srt` when absent. -/
def specExtPart (p : List Char) : List Char :=
  match lastIndexOf p '.' with
  | none => '.' :: 's' :: 'r' :: 't' :: []
  | some j => p.drop j

/-- Spec: the input path with its extension (substring after the last `.`)
removed. -/
def specStem (p : List Char) : List Char :=
  match lastIndexOf p '.' with
  | none => p
  | some j => p.take j


/-! ## main's per-file loop (lines 838-852)

`for (i = optind; i < argc; i++) { r = process_file(...); if (r != 0 &&
exit_on_fail) goto finish; }` followed by `return r`.  The loop is embedded
over the list of per-file `process_file` result codes; `prev` is the value
`r` holds on entry (0 after a successful login). -/
def mainLoop (exit_on_fail : Bool) (prev : Int) : List Int → Int
  | [] => prev
  | r :: rs => if r ≠ 0 ∧ exit_on_fail then r else mainLoop exit_on_fail r rs

/-- Number of files the loop processes before returning. -/
def mainProcessed (exit_on_fail : Bool) : List Int → Nat
  | [] => 0
  | r :: rs => if r ≠ 0 ∧ exit_on_fail then 1 else mainProcessed exit_on_fail rs + 1

/-! ## Selector: `select_1_out_of` (lines 352-368) and
`download_chosen_results` (lines 370-450)

stdin is modelled as a list of lines (each line as returned by `getline`,
normally ending in `'\n'`); an exhausted list models `getline` returning
-1 (EOF / read error).  The download step `sub_download` is abstracted by
an oracle `dl : Int → Int` from subtitle id to its return code; the claims
about the selector do not depend on the download's internals. -/

/-- Consume decimal digits, accumulating the value (the digit-consuming
part of `strtol(line, &endptr, 10)`). -/
def digitsVal : List Char → Int → Int × List Char
  | [], acc => (acc, [])
  | c :: cs, acc =>
    if c.isDigit then digitsVal cs (acc * 10 + ((c.toNat : Int) - 48))
    else (acc, c :: cs)

/-- Embedding of `strtol(s, &endptr, 10)`: skip leading whitespace, then an
optional sign, then digits; returns the value and the tail starting at
`endptr`.  When no digits follow, no conversion is performed: the value is
0 and `endptr` is the original string. -/
def strtol10 (s : List Char) : Int × List Char :=
  let t := s.dropWhile Char.isWhitespace
  let signed : Bool × List Char :=
    match t with
    | '-' :: ts => (true, ts)
    | '+' :: ts => (false, ts)
    | _ => (false, t)
  if (signed.2.headD 'x').isDigit then
    let v := digitsVal signed.2 0
    (if signed.1 then -v.1 else v.1, v.2)
  else (0, s)

/-- Embedding of `select_1_out_of(n)` (lines 352-368); recursion is over
the remaining stdin lines.  Returns `(sel, remaining stdin, prompts
printed)`: `-5` (= `-EIO`) when `getline` fails (stdin exhausted), `-1` on
a `q`/`Q` line, otherwise the first value that parses as a number
immediately followed by `'\n'` and lies in `[1, n]`; malformed lines
re-prompt. -/
def select_1_out_of (n : Nat) : List (List Char) → Int × List (List Char) × Nat
  | [] => (-5, [], 1)
  | line :: rest =>
    if line.headD ' ' = 'q' ∨ line.headD ' ' = 'Q' then (-1, rest, 1)
    else
      let p := strtol10 line
      if p.2.headD ' ' = '\n' ∧ 1 ≤ p.1 ∧ p.1 ≤ (n : Int) then (p.1, rest, 1)
      else
        let next := select_1_out_of n rest
        (next.1, next.2.1, next.2.2 + 1)

/-- One parsed search result (`struct sub_info`, lines 88-94). -/
structure SubInfo where
  id : Int
  matched_by_hash : Bool
  lang : List Char
  release_name : List Char
  filename : List Char
  deriving DecidableEq, Inhabited, Repr

/-- Spec-side (§4.3 "Preselect"): the 0-based index of the first candidate
with `matched_by_hash = true`, `none` when no candidate matched by hash. -/
def specFirstHash (subs : List SubInfo) : Option Nat :=
  subs.findIdx? (·.matched_by_hash)

/-- Scan for the first hash match starting at 0-based index `i`. -/
def preselectFrom : List SubInfo → Nat → Nat
  | [], _ => 0
  | s :: rest, i => if s.matched_by_hash then i + 1 else preselectFrom rest (i + 1)

/-- The provisional pick computed inside the parsing loop of
`download_chosen_results` (lines 394-396): `sel` starts at 0 and becomes
`i + 1` for the first `i` with `matched_by_hash`. -/
def preselect (subs : List SubInfo) : Nat :=
  preselectFrom subs 0

/-- The result of `download_chosen_results`: the return code `r`, the
1-based indices of the candidates for which `sub_download` was invoked
(in order), the number of interactive prompts issued, and the unread rest
of stdin. -/
structure DCROut where
  r : Int
  downloads : List Int
  prompts : Nat
  stdin : List (List Char)
  deriving DecidableEq, Repr

/-- The interactive `while (sel == 0 || always_ask)` loop of
`download_chosen_results` (lines 410-428), entered only when its condition
holds: print the table, run `select_1_out_of`; on `sel <= 0` return
`r = -sel`; otherwise run `sub_download` for candidate `sel`; stop when the
download failed or there is exactly one candidate, else reset `sel` to 0
and loop.  Fueled recursion (each iteration consumes at least one stdin
line); `none` models non-termination and is never reached for the fuels
used below. -/
def dcrLoop (subs : List SubInfo) (dl : Int → Int) : Nat → List (List Char) → Option DCROut
  | 0, _ => none
  | fuel + 1, script =>
    let sl := select_1_out_of subs.length script
    if sl.1 ≤ 0 then some ⟨-sl.1, [], sl.2.2, sl.2.1⟩
    else
      let r := dl ((subs.getD (sl.1 - 1).toNat default).id)
      if r ≠ 0 ∨ subs.length = 1 then some ⟨r, [sl.1], sl.2.2, sl.2.1⟩
      else
        (dcrLoop subs dl fuel sl.2.1).map fun o =>
          ⟨o.r, sl.1 :: o.downloads, sl.2.2 + o.prompts, o.stdin⟩

/-- Embedding of `download_chosen_results` (lines 370-450), after the
result-parsing loop (fields of each `SubInfo` are taken as given; the
provisional pick it computes is `preselect`): apply the `never_ask`
default, then either enter the interactive loop or download the
provisional pick directly with no prompt. -/
def download_chosen_results (always_ask never_ask : Bool) (subs : List SubInfo)
    (dl : Int → Int) (script : List (List Char)) : Option DCROut :=
  let sel0 := preselect subs
  let sel := if never_ask ∧ sel0 = 0 then 1 else sel0
  if sel = 0 ∨ always_ask then dcrLoop subs dl (script.length + 1) script
  else some ⟨dl ((subs.getD (sel - 1) default).id), [(sel : Int)], 0, script⟩

/-! ## Per-run composition: `process_file` (lines 632-678) and main's loop
(lines 838-852) combined

For the whole-run claims each input file is given by its parsed search
results (`List SubInfo`); a file with zero results makes `process_file`
return 1 ("no results.", lines 672-675), otherwise `process_file` returns
what `download_chosen_results` returns.  stdin is a single stream threaded
through the files.  The fingerprinting and RPC steps are not modelled here
(their failures are out of these claims' scope). -/

/-- The run over a list of files: returns `(final r, files processed)`.
`prev` is the `r` main holds on entry of the loop. -/
def runAll (exit_on_fail always_ask never_ask : Bool) (dl : Int → Int) (prev : Int) :
    List (List SubInfo) → List (List Char) → Option (Int × Nat)
  | [], _ => some (prev, 0)
  | job :: jobs, script =>
    let step : Option (Int × List (List Char)) :=
      if job.isEmpty then some (1, script)
      else (download_chosen_results always_ask never_ask job dl script).map
        fun o => (o.r, o.stdin)
    match step with
    | none => none
    | some (r, script') =>
      if r ≠ 0 ∧ exit_on_fail then some (r, 1)
      else (runAll exit_on_fail always_ask never_ask dl r jobs script').map
        fun p => (p.1, p.2 + 1)

/-! ## Transport-decode pipeline: the body of `sub_download` (lines 452-563)

The payload is a byte string (`List Nat`); GLib's `g_base64_decode_step` is
embedded from its source (gbase64.c); zlib's `inflate` is an external
collaborator and is a parameter `step` of the loop: a deterministic machine
`step s input cap = (z_ret, consumed, output, s')` fed the decoded bytes,
at most `cap` (= `ZLIB_CHUNK`, the `avail_out` window) output bytes per
call.  `z_ret` uses zlib's codes: 0 `Z_OK`, 1 `Z_STREAM_END`, 2
`Z_NEED_DICT`, -3 `Z_DATA_ERROR`, -4 `Z_MEM_ERROR`. -/

/-- GLib's `mime_base64_rank` table: rank of each byte in the base64
alphabet, 255 for bytes outside it.  `'='` (61) has rank 0 in the table;
padding is recognised through the `last[]` tracking, not the rank. -/
def b64rank (c : Nat) : Nat :=
  if 65 ≤ c ∧ c ≤ 90 then c - 65
  else if 97 ≤ c ∧ c ≤ 122 then c - 71
  else if 48 ≤ c ∧ c ≤ 57 then c + 4
  else if c = 43 then 62
  else if c = 47 then 63
  else if c = 61 then 0
  else 255

/-- The running state of `g_base64_decode_step`'s character loop: emitted
bytes, the 32-bit accumulator `v`, the sextet count `i`, and the last two
accepted characters. -/
structure B64Run where
  out : List Nat
  v : Nat
  i : Nat
  last0 : Nat
  last1 : Nat
  deriving DecidableEq, Repr

/-- One character of `g_base64_decode_step`'s loop: bytes of rank 255 are
skipped; every fourth accepted character emits up to three bytes, with
`'='` in the last two positions suppressing the trailing bytes. -/
def b64stepChar (st : B64Run) (c : Nat) : B64Run :=
  let rank := b64rank c
  if rank ≠ 255 then
    let last1 := st.last0
    let last0 := c
    let v := (st.v * 64 + rank) % 2 ^ 32
    if st.i + 1 = 4 then
      let o1 := [v / 2 ^ 16 % 256]
      let o2 := if last1 ≠ 61 then o1 ++ [v / 2 ^ 8 % 256] else o1
      let o3 := if last0 ≠ 61 then o2 ++ [v % 256] else o2
      ⟨st.out ++ o3, v, 0, last0, last1⟩
    else ⟨st.out, v, st.i + 1, last0, last1⟩
  else st

/-- Embedding of GLib's `g_base64_decode_step(in, len, out, &state, &save)`
over the byte list `input`: returns the decoded bytes and the updated
`(state, save)` pair.  A negative incoming `state` records that the last
accepted character of the previous call was `'='`; the outgoing `state` is
negated under the same condition.  `len == 0` returns immediately. -/
def g_base64_decode_step (input : List Nat) (state : Int) (save : Nat) :
    List Nat × Int × Nat :=
  if input = [] then ([], state, save)
  else
    let i0 : Nat := if state < 0 then (-state).toNat else state.toNat
    let last0 : Nat := if state < 0 then 61 else 0
    let fin := input.foldl b64stepChar ⟨[], save, i0, last0, 0⟩
    (fin.out, if fin.last0 = 61 then -(fin.i : Int) else (fin.i : Int), fin.v)

/-- How one run of the decode loop ended: the base64 input ran out
(`break` on `avail_in == 0`), the decompressor signalled end-of-stream, or
a decompressor fault aborted the loop. -/
inductive ExitReason where
  | exhausted : ExitReason
  | streamEnd : ExitReason
  | zerror : Int → ExitReason
  deriving DecidableEq, Repr

/-- The inner `do { ... inflate ... } while (avail_out == 0)` loop (lines
532-556): call `step` with the not-yet-consumed decoded bytes and a full
`ZLIB_CHUNK` output window; `Z_NEED_DICT` becomes `Z_DATA_ERROR`, and
`Z_DATA_ERROR`/`Z_MEM_ERROR` abort without writing that round's output;
otherwise the round's output is written and the loop repeats while the
output window came back full.  Returns `(z_ret, written, s', aborted)`;
`none` is fuel exhaustion (never reached for the machines used below). -/
def inflateLoop {σ : Type} (step : σ → List Nat → Nat → Int × Nat × List Nat × σ) :
    Nat → σ → List Nat → List Nat → Option (Int × List Nat × σ × Bool)
  | 0, _, _, _ => none
  | fuel + 1, s, input, acc =>
    let res := step s input 65536
    let out := res.2.2.1.take 65536
    let zret := if res.1 = 2 then -3 else res.1
    if zret = -3 ∨ zret = -4 then some (zret, acc, res.2.2.2, true)
    else if out.length = 65536 then
      inflateLoop step fuel res.2.2.2 (input.drop res.2.1) (acc ++ out)
    else some (zret, acc ++ out, res.2.2.2, false)

/-- The outer decode loop of `sub_download` (lines 519-557): decode up to
`ZLIB_CHUNK` base64 input bytes into `z_in`, advance the input offset by
`avail_in * 4 / 3`, break (returning `r = 0`) when nothing was decoded,
else run the inner inflate loop and repeat until `Z_STREAM_END`.  The C
call passes `ZLIB_CHUNK` as the length regardless of the remaining string:
the model reads the in-bounds bytes (the bytes past the NUL terminator are
outside the base64 alphabet in any execution this model covers, and rank
255 makes them no-ops).  Returns `(r, file bytes written, exit reason)`. -/
def decodeLoop {σ : Type} (step : σ → List Nat → Nat → Int × Nat × List Nat × σ)
    (ifuel : Nat) (payload : List Nat) :
    Nat → Int → Nat → Nat → σ → List Nat → Option (Int × List Nat × ExitReason)
  | 0, _, _, _, _, _ => none
  | ofuel + 1, b64state, b64save, offset, s, acc =>
    let chunk := (payload.drop offset).take 65536
    let dec := g_base64_decode_step chunk b64state b64save
    if dec.1.length = 0 then some (0, acc, ExitReason.exhausted)
    else
      let offset' := offset + dec.1.length * 4 / 3
      match inflateLoop step ifuel s dec.1 [] with
      | none => none
      | some (zret, written, s', aborted) =>
        if aborted then some (zret, acc ++ written, ExitReason.zerror zret)
        else if zret = 1 then some (0, acc ++ written, ExitReason.streamEnd)
        else decodeLoop step ifuel payload ofuel dec.2.1 dec.2.2 offset' s' (acc ++ written)

/-- The decode pipeline of `sub_download` from its initial state:
`b64_state = 0`, `b64_save = 0`, `b64_offset = 0`, fresh decompressor
state, empty output file. -/
def decode_stream {σ : Type} (step : σ → List Nat → Nat → Int × Nat × List Nat × σ)
    (s0 : σ) (payload : List Nat) (ofuel ifuel : Nat) :
    Option (Int × List Nat × ExitReason) :=
  decodeLoop step ifuel payload ofuel 0 0 0 s0 []

/-- Embedding of `sub_download` (lines 452-563) as observed on the output
file: `existing` is the current content of the output path (`none` when the
path does not exist, modelling `access(file_path, F_OK)`).  Without
`force_overwrite` an existing file returns `EEXIST` (17) untouched, before
any download; otherwise `fopen(file_path, "w+")` truncates and the decode
pipeline's output becomes the file's content (also on mid-stream errors,
which leave the partial output).  Returns `(r, final content)`. -/
def sub_download {σ : Type} (force_overwrite : Bool) (existing : Option (List Nat))
    (step : σ → List Nat → Nat → Int × Nat × List Nat × σ) (s0 : σ)
    (payload : List Nat) (ofuel ifuel : Nat) : Option (Int × Option (List Nat)) :=
  if existing.isSome ∧ ¬force_overwrite then some (17, existing)
  else (decode_stream step s0 payload ofuel ifuel).map fun o => (o.1, some o.2.1)

/-! ## Spec-modelled decompressor and compressor (collaborators of the
decode pipeline)

Modelled from the spec: zlib's gzip compression and streaming `inflate`
are external to the repository (§4.5 "a streaming decompressor"); the
model is a self-delimiting compressed format (an 8-byte little-endian
length header followed by the payload) and the matching streaming
decompressor: it absorbs all input offered, emits at most `cap` bytes per
call, and returns `Z_STREAM_END` exactly when the advertised byte count
has been absorbed and fully emitted. -/

/-- Eight-byte little-endian encoding of a length (the model's stream
header). -/
def lenBytes (n : Nat) : List Nat :=
  [n % 256, n / 256 % 256, n / 256 ^ 2 % 256, n / 256 ^ 3 % 256,
   n / 256 ^ 4 % 256, n / 256 ^ 5 % 256, n / 256 ^ 6 % 256, n / 256 ^ 7 % 256]

/-- Decode the 8-byte header. -/
def lenDecode (h : List Nat) : Nat :=
  h.getD 0 0 + h.getD 1 0 * 256 + h.getD 2 0 * 256 ^ 2 + h.getD 3 0 * 256 ^ 3 +
  h.getD 4 0 * 256 ^ 4 + h.getD 5 0 * 256 ^ 5 + h.getD 6 0 * 256 ^ 6 +
  h.getD 7 0 * 256 ^ 7

/-- Modelled from the spec: the compressor whose streams the model
decompressor inverts (stands in for gzip). -/
def modelCompress (bs : List Nat) : List Nat :=
  lenBytes bs.length ++ bs

/-- Decompressor state: `phase = none` while the header is incomplete
(`buf` holds the header fragment); `phase = some rem` once the header is
parsed, with `rem` payload bytes still to absorb and `buf` the absorbed
but not yet emitted bytes. -/
structure GState where
  phase : Option Nat
  buf : List Nat
  deriving DecidableEq, Repr

/-- Absorb one input chunk into the decompressor state. -/
def gAbsorb (s : GState) (input : List Nat) : GState :=
  match s.phase with
  | none =>
    let h := s.buf ++ input
    if 8 ≤ h.length then
      ⟨some (lenDecode (h.take 8) - (h.length - 8)), h.drop 8⟩
    else ⟨none, h⟩
  | some rem => ⟨some (rem - input.length), s.buf ++ input⟩

/-- Modelled from the spec: one `inflate` call of the model decompressor.
Consumes all of `input`, emits at most `cap` buffered bytes, and returns
`Z_STREAM_END` (1) exactly when the whole advertised payload has been
absorbed and emitted, else `Z_OK` (0). -/
def gStep (s : GState) (input : List Nat) (cap : Nat) : Int × Nat × List Nat × GState :=
  let s' := gAbsorb s input
  match s'.phase with
  | none => (0, input.length, [], s')
  | some rem =>
    let out := s'.buf.take cap
    let buf' := s'.buf.drop cap
    ((if rem = 0 ∧ buf' = [] then 1 else 0), input.length, out, ⟨some rem, buf'⟩)

/-- The model decompressor's initial state. -/
def gInit : GState := ⟨none, []⟩

/-! ## Base64 encoding (the transport encoding applied by the service;
canonical RFC 4648 base64 of the compressed bytes, for the round-trip
claim) -/

/-- Character of the base64 alphabet for a sextet. -/
def b64alpha (s : Nat) : Nat :=
  if s < 26 then s + 65
  else if s < 52 then s + 71
  else if s < 62 then s - 4
  else if s = 62 then 43
  else 47

/-- Canonical base64 encoding of a byte list, with `'='` (61) padding. -/
def b64encode : List Nat → List Nat
  | b1 :: b2 :: b3 :: rest =>
    b64alpha (b1 / 4) :: b64alpha (b1 % 4 * 16 + b2 / 16) ::
    b64alpha (b2 % 16 * 4 + b3 / 64) :: b64alpha (b3 % 64) :: b64encode rest
  | [b1, b2] => [b64alpha (b1 / 4), b64alpha (b1 % 4 * 16 + b2 / 16), b64alpha (b2 % 16 * 4), 61]
  | [b1] => [b64alpha (b1 / 4), b64alpha (b1 % 4 * 16), 61, 61]
  | [] => []

/-! # Theorems -/

/-! ## Claim C1 -/

/-- Claim C1 (refuted; the claim matches the spec's intent and the code has
a slip): the claim states that for a file of size S < 65536 the trailing
window starts at offset max(S − 65536, 0) = 0 and
fingerprint = S + 2 × (sum of full words).  On the 8-byte file
`[1,0,0,0,0,0,0,0]` (single word 1) the claim demands hash 8 + 2·1 = 10,
but `get_hash_and_filesize` computes 9: the unsigned subtraction
`*filesize - 65536` wraps, the wrapped offset is negative as a `long`, the
`fseek` fails and the trailing window contributes nothing, so the word sum
is counted once, not twice. -/
theorem C1_small_file_second_window_not_hashed :
    get_hash_and_filesize [1, 0, 0, 0, 0, 0, 0, 0] = (9, 8) ∧
    (9 : Nat) ≠ (8 + 2 * 1) % 2 ^ 64 := by
  constructor
  · decide
  · decide

/-! ## Claim C4 -/

/-- With `exit_on_fail` (the default), main's loop returns the first
nonzero `process_file` code, or 0 when every file succeeds. -/
theorem mainLoop_exit_on_fail_eq_first_failure (rs : List Int) :
    mainLoop true 0 rs = ((rs.find? (fun r => r != 0)).getD 0) := by
  induction rs with
  | nil => rfl
  | cons r rs ih =>
    by_cases hr : r = 0
    · subst hr
      simpa [mainLoop, List.find?] using ih
    · have hb : (r != 0) = true := by simpa using hr
      simp [mainLoop, List.find?, hr, hb]

/-- With `--no-exit-on-fail`, main's loop returns the code of the last
processed file, whatever the earlier codes were. -/
theorem mainLoop_no_exit_eq_last (prev : Int) (rs : List Int) :
    mainLoop false prev rs = rs.getLastD prev := by
  induction rs generalizing prev with
  | nil => rfl
  | cons r rs ih =>
    rw [List.getLastD_cons]
    simpa [mainLoop] using ih r

/-- Claim C4 counterexample: with `--no-exit-on-fail` and the per-file
result codes [1, 0] (first file fails with code 1, second succeeds), both
files are processed and the process exit status is 0 — contradicting the
claim that the exit status is non-zero when any processed file fails and
that with continue-on-failure the last failure's code is returned. -/
theorem C4_counterexample_later_success_masks_failure :
    mainLoop false 0 [1, 0] = 0 ∧ mainProcessed false [1, 0] = 2 := by
  constructor
  · decide
  · decide

/-- Claim C4 as amended: the process exit status is the code of the *last
processed file*: with `exit_on_fail` (the default) the run stops at the
first failure and returns its code (so any failure gives a non-zero
status), while with `--no-exit-on-fail` the run returns the final file's
code, so earlier failures are masked by a later success. -/
theorem C4_exit_code_is_last_processed :
    (∀ rs : List Int, mainLoop true 0 rs = ((rs.find? (fun r => r != 0)).getD 0)) ∧
    (∀ (prev : Int) (rs : List Int), mainLoop false prev rs = rs.getLastD prev) :=
  ⟨mainLoop_exit_on_fail_eq_first_failure, mainLoop_no_exit_eq_last⟩

/-! ## Claim C6 -/

/-- Claim C6: output-path derivation.  Without `same_name`, the subtitle's
reported file name is placed in the input file's directory (the path up to
and including its last `/`); with `same_name`, the input path is cut at its
last `.` and the subtitle's extension (its substring from the last `.`,
defaulting to `.srt` when it has none — `specExtPart`) is appended.  In
particular `/a/b/movie.mkv` with subtitle `x.srt` yields `/a/b/x.srt`
resp. `/a/b/movie.srt`. -/
theorem C6_output_path_derivation :
    (∀ fp sub : List Char, lastIndexOf fp '/' ≠ none →
      get_sub_path false fp sub = specDirPart fp ++ sub) ∧
    (∀ fp sub : List Char, lastIndexOf fp '.' ≠ none →
      get_sub_path true fp sub = specStem fp ++ specExtPart sub) ∧
    get_sub_path false "/a/b/movie.mkv".toList "x.srt".toList = "/a/b/x.srt".toList ∧
    get_sub_path true "/a/b/movie.mkv".toList "x.srt".toList = "/a/b/movie.srt".toList := by
  refine ⟨?_, ?_, by decide, by decide⟩
  · intro fp sub h
    match hj : lastIndexOf fp '/' with
    | none => exact absurd hj h
    | some j => simp [get_sub_path, specDirPart, hj]
  · intro fp sub h
    match hj : lastIndexOf fp '.' with
    | none => exact absurd hj h
    | some j =>
      match hk : lastIndexOf sub '.' with
      | none => simp [get_sub_path, specStem, specExtPart, hj, hk]
      | some k => simp [get_sub_path, specStem, specExtPart, hj, hk]

/-- Witness for C6: the general clauses instantiated at
`/a/b/movie.mkv` and `x.srt`. -/
theorem C6_output_path_witness :
    (lastIndexOf "/a/b/movie.mkv".toList '/' ≠ none ∧
      get_sub_path false "/a/b/movie.mkv".toList "x.srt".toList =
        specDirPart "/a/b/movie.mkv".toList ++ "x.srt".toList) ∧
    (lastIndexOf "/a/b/movie.mkv".toList '.' ≠ none ∧
      get_sub_path true "/a/b/movie.mkv".toList "x.srt".toList =
        specStem "/a/b/movie.mkv".toList ++ specExtPart "x.srt".toList) :=
  ⟨⟨by decide, C6_output_path_derivation.1 _ _ (by decide)⟩,
   ⟨by decide, C6_output_path_derivation.2.1 _ _ (by decide)⟩⟩

/-! ## Claim C10 -/

/-- Claim C10: with `same_name` and an input path containing no `.`,
`get_sub_path` takes `index = strlen(filepath) - 1`, i.e. copies all but
the last character of the path before appending the subtitle's extension:
`movie` with subtitle `x.srt` yields `movi.srt`, not `movie.srt`.  (The
path is required non-empty; for an empty path the C code's
`strncpy(dst, src, -1)` is undefined behaviour.) -/
theorem C10_same_name_no_dot_drops_last_char :
    (∀ fp sub : List Char, lastIndexOf fp '.' = none → fp ≠ [] →
      get_sub_path true fp sub = fp.take (fp.length - 1) ++ specExtPart sub) ∧
    get_sub_path true "movie".toList "x.srt".toList = "movi.srt".toList := by
  refine ⟨?_, by decide⟩
  intro fp sub h _
  match hk : lastIndexOf sub '.' with
  | none => simp [get_sub_path, specExtPart, h, hk]
  | some k => simp [get_sub_path, specExtPart, h, hk]

/-- Witness for C10: the general clause instantiated at path `movie` and
subtitle `x.srt`. -/
theorem C10_same_name_no_dot_witness :
    lastIndexOf "movie".toList '.' = none ∧ "movie".toList ≠ [] ∧
    get_sub_path true "movie".toList "x.srt".toList =
      "movie".toList.take ("movie".toList.length - 1) ++ specExtPart "x.srt".toList :=
  ⟨by decide, by decide,
   C10_same_name_no_dot_drops_last_char.1 _ _ (by decide) (by decide)⟩

/-! ## Claim C5 -/

/-- The provisional-pick scan of `download_chosen_results` computes exactly
the spec's "first candidate with `matched_by_hash`", 1-based; 0 when there
is no hash match. -/
theorem preselect_eq_specFirstHash (subs : List SubInfo) :
    preselect subs =
      match specFirstHash subs with
      | some k => k + 1
      | none => 0 := by
  have main : ∀ (l : List SubInfo) (i : Nat),
      preselectFrom l i =
        match l.findIdx? (·.matched_by_hash) with
        | some k => i + k + 1
        | none => 0 := by
    intro l
    induction l with
    | nil => intro i; rfl
    | cons s rest ih =>
      intro i
      by_cases hs : s.matched_by_hash
      · simp [preselectFrom, hs, List.findIdx?_cons]
      · simp only [preselectFrom, hs, if_false, List.findIdx?_cons, Bool.false_eq_true,
          List.findIdx?_succ, ih (i + 1)]
        cases rest.findIdx? (·.matched_by_hash) with
        | none => simp
        | some k => simp; omega
  have h0 := main subs 0
  simp only [preselect, specFirstHash, h0]
  cases subs.findIdx? (·.matched_by_hash) with
  | none => rfl
  | some k => simp

/-- Claim C5: with `always_ask = false`, when some candidate matched by
hash exists the selector resolves with no prompt to the first such
candidate (whatever `never_ask` is); when none exists and
`never_ask = true` it resolves with no prompt to candidate 1 (index 0).
`prompts = 0` records that `select_1_out_of` was never invoked and stdin
was not consumed. -/
theorem C5_autoresolve_without_prompt :
    (∀ (na : Bool) (subs : List SubInfo) (dl : Int → Int)
        (script : List (List Char)) (k : Nat),
      specFirstHash subs = some k →
      download_chosen_results false na subs dl script =
        some ⟨dl ((subs.getD k default).id), [((k : Int) + 1)], 0, script⟩) ∧
    (∀ (subs : List SubInfo) (dl : Int → Int) (script : List (List Char)),
      subs ≠ [] → specFirstHash subs = none →
      download_chosen_results false true subs dl script =
        some ⟨dl ((subs.getD 0 default).id), [1], 0, script⟩) := by
  constructor
  · intro na subs dl script k hk
    have hp : preselect subs = k + 1 := by
      simp [preselect_eq_specFirstHash, hk]
    simp [download_chosen_results, hp]
  · intro subs dl script _ hnone
    have hp : preselect subs = 0 := by
      simp [preselect_eq_specFirstHash, hnone]
    simp [download_chosen_results, hp]

/-- Witness for C5: a three-candidate list whose sole hash match is
candidate 3 resolves to candidate 3 with no prompt; a two-candidate list
with no hash match and `never_ask` resolves to candidate 1 with no
prompt. -/
theorem C5_autoresolve_witness :
    (specFirstHash [⟨11, false, [], [], []⟩, ⟨22, false, [], [], []⟩,
        ⟨33, true, [], [], []⟩] = some 2 ∧
      download_chosen_results false false
        [⟨11, false, [], [], []⟩, ⟨22, false, [], [], []⟩, ⟨33, true, [], [], []⟩]
        (fun i => i) [] =
        some ⟨(fun i : Int => i)
          (([(⟨11, false, [], [], []⟩ : SubInfo), ⟨22, false, [], [], []⟩,
             ⟨33, true, [], [], []⟩].getD 2 default).id),
          [((2 : Nat) : Int) + 1], 0, []⟩) ∧
    (([(⟨11, false, [], [], []⟩ : SubInfo), ⟨22, false, [], [], []⟩] ≠ []) ∧
      specFirstHash [⟨11, false, [], [], []⟩, ⟨22, false, [], [], []⟩] = none ∧
      download_chosen_results false true
        [⟨11, false, [], [], []⟩, ⟨22, false, [], [], []⟩] (fun i => i) [] =
        some ⟨(fun i : Int => i)
          (([(⟨11, false, [], [], []⟩ : SubInfo), ⟨22, false, [], [], []⟩].getD 0
            default).id), [1], 0, []⟩) :=
  ⟨⟨by decide, C5_autoresolve_without_prompt.1 false _ _ [] 2 (by decide)⟩,
   ⟨by decide, by decide, C5_autoresolve_without_prompt.2 _ _ [] (by decide) (by decide)⟩⟩

/-! ## Claim C8 -/

/-- Claim C8: shape of one round of the interactive loop.  After a valid
selection `k` (what `select_1_out_of` returned, with its consumed stdin and
prompt count), the download step runs for candidate `k`; the loop
terminates with that single download when the download fails or there is
exactly one candidate, and otherwise loops back into another interactive
round whose downloads are appended after `k`. -/
theorem C8_interactive_loop_shape
    (subs : List SubInfo) (dl : Int → Int) (fuel : Nat)
    (script script' : List (List Char)) (k : Int) (p : Nat)
    (hsel : select_1_out_of subs.length script = (k, script', p)) (hk : 1 ≤ k) :
    dcrLoop subs dl (fuel + 1) script =
      if dl ((subs.getD (k - 1).toNat default).id) ≠ 0 ∨ subs.length = 1 then
        some ⟨dl ((subs.getD (k - 1).toNat default).id), [k], p, script'⟩
      else
        (dcrLoop subs dl fuel script').map fun o =>
          ⟨o.r, k :: o.downloads, p + o.prompts, o.stdin⟩ := by
  have hk0 : ¬ k ≤ 0 := by omega
  simp [dcrLoop, hsel, hk0]

/-- Witness for C8: two candidates, a successful download oracle, stdin
`["1\n", "q\n"]`: the selection hypothesis holds concretely and the loop
re-enters an interactive round after the successful download. -/
theorem C8_interactive_loop_witness :
    select_1_out_of
      ([(⟨11, false, [], [], []⟩ : SubInfo), ⟨22, false, [], [], []⟩].length)
      [['1', '\n'], ['q', '\n']] = (1, [['q', '\n']], 1) ∧
    (1 : Int) ≤ 1 ∧
    dcrLoop [(⟨11, false, [], [], []⟩ : SubInfo), ⟨22, false, [], [], []⟩]
      (fun _ => 0) (1 + 1) [['1', '\n'], ['q', '\n']] =
      (if (fun _ : Int => (0 : Int))
            ((([(⟨11, false, [], [], []⟩ : SubInfo), ⟨22, false, [], [], []⟩].getD
              ((1 : Int) - 1).toNat default)).id) ≠ 0 ∨
          [(⟨11, false, [], [], []⟩ : SubInfo), ⟨22, false, [], [], []⟩].length = 1 then
        some ⟨(fun _ : Int => (0 : Int))
            ((([(⟨11, false, [], [], []⟩ : SubInfo), ⟨22, false, [], [], []⟩].getD
              ((1 : Int) - 1).toNat default)).id), [(1 : Int)], 1, [['q', '\n']]⟩
      else
        (dcrLoop [(⟨11, false, [], [], []⟩ : SubInfo), ⟨22, false, [], [], []⟩]
          (fun _ => 0) 1 [['q', '\n']]).map fun o =>
          ⟨o.r, (1 : Int) :: o.downloads, 1 + o.prompts, o.stdin⟩) :=
  ⟨by decide, by decide,
   C8_interactive_loop_shape _ _ 1 _ _ 1 1 (by decide) (by decide)⟩

/-! ## Claim C3 -/

/-- Claim C3 counterexample: two input files, default flags
(`exit_on_fail = true`, `always_ask = never_ask = false`), no hash match,
stdin `"q\n"`: the user's quit makes the current file's processing return
code 1, and because `exit_on_fail` defaults to true the run stops after
that first file — only 1 of the 2 input files is processed, contradicting
the claim that the whole run is not aborted. -/
theorem C3_counterexample_quit_aborts_run_by_default :
    runAll true false false (fun _ => 0) 0
      [[⟨11, false, [], [], []⟩], [⟨11, false, [], [], []⟩]]
      [['q', '\n']] = some (1, 1) ∧
    ([[(⟨11, false, [], [], []⟩ : SubInfo)], [⟨11, false, [], [], []⟩]]).length = 2 :=
  ⟨by decide, by decide⟩

/-- Claim C3 as amended: answering the interactive prompt with `q`
terminates the current file's processing with code 1 (nothing downloaded,
one prompt consumed); the run then continues with the remaining input
files only when `--no-exit-on-fail` is set — with the default
`exit_on_fail` the whole run stops at the cancelled file. -/
theorem C3_quit_cancels_current_file :
    (∀ (subs : List SubInfo) (dl : Int → Int) (rest : List (List Char)),
      preselect subs = 0 →
      download_chosen_results false false subs dl (['q', '\n'] :: rest) =
        some ⟨1, [], 1, rest⟩) ∧
    (∀ eof : Bool,
      runAll eof false false (fun _ => 0) 0
        [[⟨11, false, [], [], []⟩], [⟨11, false, [], [], []⟩]]
        [['q', '\n'], ['q', '\n']] = some (1, if eof then 1 else 2)) := by
  constructor
  · intro subs dl rest h
    simp [download_chosen_results, h, dcrLoop, select_1_out_of]
  · intro eof
    cases eof
    · decide
    · decide

/-- Witness for C3: the quit clause instantiated at a one-candidate list
with no hash match and stdin `["q\n"]`. -/
theorem C3_quit_witness :
    preselect [⟨11, false, [], [], []⟩] = 0 ∧
    download_chosen_results false false [⟨11, false, [], [], []⟩] (fun _ => 0)
      (['q', '\n'] :: []) = some ⟨1, [], 1, []⟩ :=
  ⟨by decide, C3_quit_cancels_current_file.1 _ _ [] (by decide)⟩

/-! ## Supporting lemmas for the decode round-trip (claim C9) -/

/-- The GLib rank table inverts the base64 alphabet. -/
theorem b64rank_b64alpha : ∀ s : Nat, s < 64 → b64rank (b64alpha s) = s := by decide

/-- No alphabet character is the padding character `'='` (61). -/
theorem b64alpha_ne_61 : ∀ s : Nat, s < 64 → b64alpha s ≠ 61 := by decide

/-- A full (unpadded) base64 group decodes to its three bytes: folding the
four alphabet characters of `[b1, b2, b3]` from a counter-0 state appends
exactly `[b1, b2, b3]` and returns to counter 0. -/
theorem fold_group_full (o : List Nat) (v l0 l1 : Nat) (b1 b2 b3 : Nat)
    (h1 : b1 < 256) (h2 : b2 < 256) (h3 : b3 < 256) :
    [b64alpha (b1 / 4), b64alpha (b1 % 4 * 16 + b2 / 16),
     b64alpha (b2 % 16 * 4 + b3 / 64), b64alpha (b3 % 64)].foldl b64stepChar
      ⟨o, v, 0, l0, l1⟩ =
    ⟨o ++ [b1, b2, b3],
     (v * 2 ^ 24 + b1 * 2 ^ 16 + b2 * 2 ^ 8 + b3) % 2 ^ 32, 0,
     b64alpha (b3 % 64), b64alpha (b2 % 16 * 4 + b3 / 64)⟩ := by
  have r1 := b64rank_b64alpha (b1 / 4) (by omega)
  have r2 := b64rank_b64alpha (b1 % 4 * 16 + b2 / 16) (by omega)
  have r3 := b64rank_b64alpha (b2 % 16 * 4 + b3 / 64) (by omega)
  have r4 := b64rank_b64alpha (b3 % 64) (by omega)
  have n1 : ¬ b1 / 4 = 255 := by omega
  have n2 : ¬ (b1 % 4 * 16 + b2 / 16) = 255 := by omega
  have n3 : ¬ (b2 % 16 * 4 + b3 / 64) = 255 := by omega
  have n4 : ¬ (b3 % 64) = 255 := by omega
  have q3 : ¬ b64alpha (b2 % 16 * 4 + b3 / 64) = 61 := b64alpha_ne_61 _ (by omega)
  have q4 : ¬ b64alpha (b3 % 64) = 61 := b64alpha_ne_61 _ (by omega)
  simp [List.foldl, b64stepChar, r1, r2, r3, r4, n1, n2, n3, n4, q3, q4]
  refine ⟨⟨?_, ?_, ?_⟩, ?_⟩ <;> omega

/-- A base64 group with two `'='` padding characters decodes to its single
byte. -/
theorem fold_group_pad1 (o : List Nat) (v l0 l1 : Nat) (b1 : Nat) (h1 : b1 < 256) :
    [b64alpha (b1 / 4), b64alpha (b1 % 4 * 16), 61, 61].foldl b64stepChar
      ⟨o, v, 0, l0, l1⟩ =
    ⟨o ++ [b1], (v * 2 ^ 24 + b1 * 2 ^ 16) % 2 ^ 32, 0, 61, 61⟩ := by
  have r1 := b64rank_b64alpha (b1 / 4) (by omega)
  have r2 := b64rank_b64alpha (b1 % 4 * 16) (by omega)
  have n1 : ¬ b1 / 4 = 255 := by omega
  have n2 : ¬ (b1 % 4 * 16) = 255 := by omega
  have r61 : b64rank 61 = 0 := by decide
  simp [List.foldl, b64stepChar, r1, r2, n1, n2, r61]
  omega

/-- A base64 group with one `'='` padding character decodes to its two
bytes. -/
theorem fold_group_pad2 (o : List Nat) (v l0 l1 : Nat) (b1 b2 : Nat)
    (h1 : b1 < 256) (h2 : b2 < 256) :
    [b64alpha (b1 / 4), b64alpha (b1 % 4 * 16 + b2 / 16), b64alpha (b2 % 16 * 4),
     61].foldl b64stepChar ⟨o, v, 0, l0, l1⟩ =
    ⟨o ++ [b1, b2], (v * 2 ^ 24 + b1 * 2 ^ 16 + b2 * 2 ^ 8) % 2 ^ 32, 0, 61,
     b64alpha (b2 % 16 * 4)⟩ := by
  have r1 := b64rank_b64alpha (b1 / 4) (by omega)
  have r2 := b64rank_b64alpha (b1 % 4 * 16 + b2 / 16) (by omega)
  have r3 := b64rank_b64alpha (b2 % 16 * 4) (by omega)
  have n1 : ¬ b1 / 4 = 255 := by omega
  have n2 : ¬ (b1 % 4 * 16 + b2 / 16) = 255 := by omega
  have n3 : ¬ (b2 % 16 * 4) = 255 := by omega
  have q3 : ¬ b64alpha (b2 % 16 * 4) = 61 := b64alpha_ne_61 _ (by omega)
  have r61 : b64rank 61 = 0 := by decide
  simp [List.foldl, b64stepChar, r1, r2, r3, n1, n2, n3, q3, r61]
  refine ⟨⟨?_, ?_⟩, ?_⟩ <;> omega

/-- Folding the decode step over the base64 encoding of any byte list,
starting from a counter-0 state, appends exactly that byte list and
returns to counter 0. -/
theorem fold_b64encode : ∀ (m : List Nat) (o : List Nat) (v l0 l1 : Nat),
    (∀ b ∈ m, b < 256) →
    ∃ v' l0' l1', (b64encode m).foldl b64stepChar ⟨o, v, 0, l0, l1⟩ =
      ⟨o ++ m, v', 0, l0', l1'⟩ := by
  intro m
  induction m using b64encode.induct with
  | case1 b1 b2 b3 rest ih =>
    intro o v l0 l1 hb
    have hsplit : b64encode (b1 :: b2 :: b3 :: rest) =
        [b64alpha (b1 / 4), b64alpha (b1 % 4 * 16 + b2 / 16),
         b64alpha (b2 % 16 * 4 + b3 / 64), b64alpha (b3 % 64)] ++ b64encode rest := by
      simp [b64encode]
    have h1 : b1 < 256 := hb b1 (by simp)
    have h2 : b2 < 256 := hb b2 (by simp)
    have h3 : b3 < 256 := hb b3 (by simp)
    have hbrest : ∀ b ∈ rest, b < 256 := fun b hbm => hb b (by simp [hbm])
    rw [hsplit, List.foldl_append, fold_group_full o v l0 l1 b1 b2 b3 h1 h2 h3]
    obtain ⟨v', l0', l1', hfold⟩ :=
      ih (o ++ [b1, b2, b3]) ((v * 2 ^ 24 + b1 * 2 ^ 16 + b2 * 2 ^ 8 + b3) % 2 ^ 32)
        (b64alpha (b3 % 64)) (b64alpha (b2 % 16 * 4 + b3 / 64)) hbrest
    refine ⟨v', l0', l1', ?_⟩
    rw [hfold]
    simp
  | case2 b1 b2 =>
    intro o v l0 l1 hb
    have h1 : b1 < 256 := hb b1 (by simp)
    have h2 : b2 < 256 := hb b2 (by simp)
    exact ⟨_, _, _, fold_group_pad2 o v l0 l1 b1 b2 h1 h2⟩
  | case3 b1 =>
    intro o v l0 l1 hb
    have h1 : b1 < 256 := hb b1 (by simp)
    exact ⟨_, _, _, fold_group_pad1 o v l0 l1 b1 h1⟩
  | case4 =>
    intro o v l0 l1 _
    exact ⟨v, l0, l1, by simp [b64encode]⟩

/-- The encoding of a non-empty byte list is non-empty. -/
theorem b64encode_ne_nil (m : List Nat) (hm : m ≠ []) : b64encode m ≠ [] := by
  match m with
  | [] => exact absurd rfl hm
  | [b1] => simp [b64encode]
  | [b1, b2] => simp [b64encode]
  | b1 :: b2 :: b3 :: rest => simp [b64encode]

/-- One `g_base64_decode_step` call on the full base64 encoding of a byte
list, from a counter-0 state, decodes exactly that byte list and hands
back a counter-0 state. -/
theorem g_base64_decode_step_encode (m : List Nat) (v : Nat)
    (hm : m ≠ []) (hb : ∀ b ∈ m, b < 256) :
    ∃ v', g_base64_decode_step (b64encode m) 0 v = (m, 0, v') := by
  obtain ⟨v', l0', l1', hfold⟩ := fold_b64encode m [] v 0 0 hb
  refine ⟨v', ?_⟩
  have hne := b64encode_ne_nil m hm
  simp only [g_base64_decode_step, if_neg hne]
  norm_num
  rw [hfold]
  simp

/-- Length of the base64 encoding: four characters per started group of
three bytes. -/
theorem b64encode_length : ∀ m : List Nat, (b64encode m).length = (m.length + 2) / 3 * 4 := by
  intro m
  induction m using b64encode.induct with
  | case1 b1 b2 b3 rest ih =>
    simp only [b64encode, List.length_cons, ih]
    omega
  | case2 b1 b2 => simp [b64encode]
  | case3 b1 => simp [b64encode]
  | case4 => simp [b64encode]

/-- The base64 encoding distributes over append at group boundaries. -/
theorem b64encode_append : ∀ a b : List Nat, a.length % 3 = 0 →
    b64encode (a ++ b) = b64encode a ++ b64encode b := by
  intro a
  induction a using b64encode.induct with
  | case1 b1 b2 b3 rest ih =>
    intro b h
    have hr : rest.length % 3 = 0 := by simp at h; omega
    simp only [List.cons_append, b64encode, List.append_eq, ih b hr]
  | case2 b1 b2 => intro b h; simp at h
  | case3 b1 => intro b h; simp at h
  | case4 => intro b _; simp [b64encode]

/-- The first decode chunk of an encoded list is the encoding of the first
49152 bytes (the outer loop reads `ZLIB_CHUNK` = 65536 characters, i.e.
16384 groups). -/
theorem b64encode_take_chunk (l : List Nat) :
    (b64encode l).take 65536 = b64encode (l.take 49152) := by
  by_cases h : 49152 ≤ l.length
  · have hsplit : l = l.take 49152 ++ l.drop 49152 := (List.take_append_drop _ _).symm
    have hlen : (l.take 49152).length = 49152 := by simp; omega
    conv_lhs => rw [hsplit]
    rw [b64encode_append _ _ (by omega)]
    exact List.take_left' (by rw [b64encode_length, hlen])
  · have hlen : (b64encode l).length ≤ 65536 := by rw [b64encode_length]; omega
    rw [List.take_of_length_le hlen, List.take_of_length_le (by omega)]

/-- Dropping the first decode chunk of an encoded list leaves the encoding
of the bytes after the first 49152. -/
theorem b64encode_drop_chunk (l : List Nat) :
    (b64encode l).drop 65536 = b64encode (l.drop 49152) := by
  by_cases h : 49152 ≤ l.length
  · have hsplit : l = l.take 49152 ++ l.drop 49152 := (List.take_append_drop _ _).symm
    have hlen : (l.take 49152).length = 49152 := by simp; omega
    conv_lhs => rw [hsplit]
    rw [b64encode_append _ _ (by omega)]
    exact List.drop_left' (by rw [b64encode_length, hlen])
  · have hlen : (b64encode l).length ≤ 65536 := by rw [b64encode_length]; omega
    rw [List.drop_eq_nil_of_le hlen, List.drop_eq_nil_of_le (by omega)]
    rfl

/-- The decode loop reads the payload only from the current offset on:
running it on `payload` at `offset` equals running it on
`payload.drop offset` at offset 0. -/
theorem decodeLoop_shift {σ : Type} (step : σ → List Nat → Nat → Int × Nat × List Nat × σ)
    (ifuel : Nat) :
    ∀ (ofuel : Nat) (payload : List Nat) (b64state : Int) (b64save offset : Nat)
      (s : σ) (acc : List Nat),
      decodeLoop step ifuel payload ofuel b64state b64save offset s acc =
      decodeLoop step ifuel (payload.drop offset) ofuel b64state b64save 0 s acc := by
  intro ofuel
  induction ofuel with
  | zero => intros; rfl
  | succ f ih =>
    intro payload b64state b64save offset s acc
    simp only [decodeLoop, List.drop_zero]
    by_cases h0 :
      (g_base64_decode_step ((payload.drop offset).take 65536) b64state b64save).1.length = 0
    · simp [h0]
    · simp only [h0, if_false, reduceIte]
      cases hI : inflateLoop step ifuel s
          (g_base64_decode_step ((payload.drop offset).take 65536) b64state b64save).1 [] with
      | none => rfl
      | some q =>
        obtain ⟨zret, written, s', aborted⟩ := q
        cases aborted with
        | true => rfl
        | false =>
          by_cases hz : zret = 1
          · simp [hz]
          · simp only [hz, if_false, reduceIte, Bool.false_eq_true, Nat.zero_add]
            rw [ih payload, ih (payload.drop offset), List.drop_drop]

/-- One model-decompressor call with empty pending buffer and an input not
exceeding the output window: the input is fully absorbed and echoed, with
`Z_STREAM_END` exactly when the advertised count is exhausted. -/
theorem gStep_pending_empty (rem : Nat) (input : List Nat) (h : input.length ≤ 65536) :
    gStep ⟨some rem, []⟩ input 65536 =
      ((if rem - input.length = 0 then 1 else 0), input.length, input,
       ⟨some (rem - input.length), []⟩) := by
  simp [gStep, gAbsorb, List.take_of_length_le h, List.drop_eq_nil_of_le h]

/-- The inner inflate loop on the model decompressor with an empty pending
buffer finishes in one round: the chunk is echoed to the sink and the
stream ends exactly when the advertised count is exhausted. -/
theorem inflateLoop_one_round (rem : Nat) (input : List Nat) (h : input.length ≤ 49152) :
    inflateLoop gStep 1 ⟨some rem, []⟩ input [] =
      some ((if rem - input.length = 0 then 1 else 0), input,
        ⟨some (rem - input.length), []⟩, false) := by
  have h6 : input.length ≤ 65536 := by omega
  simp only [inflateLoop, gStep_pending_empty rem input h6]
  by_cases hz : rem - input.length = 0 <;>
    simp [hz, List.take_of_length_le h6, show ¬ input.length = 65536 by omega]

/-- Draining the model decompressor through the decode loop: starting with
the header already parsed (`rem` = length of the remaining compressed
bytes `rest`), an empty pending buffer, a counter-0 base64 state and the
encoding of `rest` as the remaining payload, the loop writes exactly
`rest` and ends with `Z_STREAM_END`. -/
theorem gLoop_drain :
    ∀ (ofuel : Nat) (rest : List Nat) (v : Nat) (acc : List Nat),
      rest ≠ [] → (∀ b ∈ rest, b < 256) → rest.length ≤ 49152 * ofuel →
      decodeLoop gStep 1 (b64encode rest) ofuel 0 v 0 ⟨some rest.length, []⟩ acc =
        some (0, acc ++ rest, ExitReason.streamEnd) := by
  intro ofuel
  induction ofuel with
  | zero =>
    intro rest v acc hne hb hlen
    exact absurd (List.eq_nil_of_length_eq_zero (by omega)) hne
  | succ f ih =>
    intro rest v acc hne hb hlen
    have hlen0 : ¬ rest.length = 0 := fun h => hne (List.eq_nil_of_length_eq_zero h)
    by_cases hsmall : rest.length ≤ 49152
    · have htake : (b64encode rest).take 65536 = b64encode rest :=
        List.take_of_length_le (by rw [b64encode_length]; omega)
      obtain ⟨v', hdec⟩ := g_base64_decode_step_encode rest v hne hb
      simp [decodeLoop, htake, hdec, hlen0, hne,
        inflateLoop_one_round rest.length rest hsmall]
    · have h49 : 49152 ≤ rest.length := by omega
      have hmlen : (rest.take 49152).length = 49152 := by simp; omega
      have hmne : rest.take 49152 ≠ [] := by
        intro h
        rw [h] at hmlen
        simp at hmlen
      have hmb : ∀ b ∈ rest.take 49152, b < 256 := fun b hb' => hb b (List.mem_of_mem_take hb')
      have htake : (b64encode rest).take 65536 = b64encode (rest.take 49152) :=
        b64encode_take_chunk rest
      obtain ⟨v', hdec⟩ := g_base64_decode_step_encode (rest.take 49152) v hmne hmb
      have hm0 : ¬ (rest.take 49152).length = 0 := by omega
      have hret : ¬ rest.length - (rest.take 49152).length = 0 := by
        rw [hmlen]; omega
      have ihap := ih (rest.drop 49152) v' (acc ++ rest.take 49152)
        (by
          intro h
          have := congrArg List.length h
          simp at this
          omega)
        (fun b hb' => hb b (List.mem_of_mem_drop hb'))
        (by simp; omega)
      have hoff : 0 + (rest.take 49152).length * 4 / 3 = 65536 := by rw [hmlen]
      simp only [decodeLoop, List.drop_zero, htake, hdec, hm0, if_false, reduceIte,
        inflateLoop_one_round rest.length (rest.take 49152) (by omega), hret,
        Bool.false_eq_true, show ¬ ((0 : Int) = 1) by omega]
      rw [decodeLoop_shift gStep 1, hoff, b64encode_drop_chunk,
        show rest.length - (rest.take 49152).length = (rest.drop 49152).length by
          rw [hmlen]; simp,
        ihap]
      simp [List.append_assoc]

/-- The model header is 8 bytes long. -/
theorem lenBytes_length (n : Nat) : (lenBytes n).length = 8 := by
  simp [lenBytes]

/-- The model header's bytes are bytes. -/
theorem lenBytes_lt (n : Nat) : ∀ b ∈ lenBytes n, b < 256 := by
  intro b hb
  simp [lenBytes] at hb
  rcases hb with h | h | h | h | h | h | h | h <;> omega

/-- The model header round-trips lengths below 2^64. -/
theorem lenDecode_lenBytes (n : Nat) (h : n < 2 ^ 64) : lenDecode (lenBytes n) = n := by
  simp [lenDecode, lenBytes]
  omega

/-- The model decompressor's first call when the whole compressed stream
fits in one decode chunk: header parsed, payload echoed, stream end. -/
theorem gStep_first_small (n : Nat) (hn : n < 2 ^ 64) (bs : List Nat)
    (hfit : 8 + bs.length ≤ 49152) (hnb : n = bs.length) :
    gStep gInit (lenBytes n ++ bs) 65536 =
      (1, (lenBytes n ++ bs).length, bs, ⟨some 0, []⟩) := by
  have h8 : 8 ≤ (lenBytes n ++ bs).length := by
    simp [lenBytes_length]
  have htk8 : (lenBytes n ++ bs).take 8 = lenBytes n := List.take_left' (lenBytes_length n)
  have hdr8 : (lenBytes n ++ bs).drop 8 = bs := List.drop_left' (lenBytes_length n)
  have hbs : bs.length ≤ 65536 := by omega
  simp [gStep, gAbsorb, gInit, h8, htk8, hdr8, lenDecode_lenBytes n hn,
    List.take_of_length_le hbs, List.drop_eq_nil_of_le hbs, lenBytes_length]
  omega

/-- The model decompressor's first call when the compressed stream spans
several decode chunks: header parsed, the first 49144 payload bytes
echoed, the rest still expected. -/
theorem gStep_first_large (n : Nat) (hn : n < 2 ^ 64) (bs : List Nat)
    (hbig : 49152 ≤ 8 + bs.length) (hnb : n = bs.length) :
    gStep gInit ((lenBytes n ++ bs).take 49152) 65536 =
      ((if 8 + bs.length - 49152 = 0 then 1 else 0), 49152, bs.take 49144,
       ⟨some (8 + bs.length - 49152), []⟩) := by
  have hclen : ((lenBytes n ++ bs).take 49152).length = 49152 := by
    simp [lenBytes_length]
    omega
  have htk8 : ((lenBytes n ++ bs).take 49152).take 8 = lenBytes n := by
    rw [List.take_take, show min 8 49152 = 8 by norm_num]
    exact List.take_left' (lenBytes_length n)
  have hdr8 : ((lenBytes n ++ bs).take 49152).drop 8 = bs.take 49144 := by
    rw [List.drop_take, List.drop_left' (lenBytes_length n)]
  have htk2 : (bs.take 49144).take 65536 = bs.take 49144 := by
    rw [List.take_take, show min 65536 49144 = 49144 by norm_num]
  have hd2 : (bs.take 49144).drop 65536 = [] :=
    List.drop_eq_nil_of_le (by simp)
  have h8 : 8 ≤ ((lenBytes n ++ bs).take 49152).length := by omega
  simp [gStep, gAbsorb, gInit, h8, htk8, hdr8, lenDecode_lenBytes n hn, hclen,
    htk2, hd2]
  omega

/-- Claim C9 (spec-modelled decompressor): for every plaintext (byte list,
length below 2^64), compressing it with the model compressor, base64
encoding the result and running it through the decode pipeline writes the
original plaintext to the sink byte-for-byte and ends with the
decompressor's end-of-stream — including when the encoded input spans
several 65536-character decode chunks.  zlib's gzip is modelled from the
spec by `modelCompress`/`gStep` (an external collaborator of the
pipeline). -/
theorem C9_decode_roundtrip (bs : List Nat) (hb : ∀ b ∈ bs, b < 256)
    (hlen : bs.length < 2 ^ 64) :
    decode_stream gStep gInit (b64encode (modelCompress bs))
      ((modelCompress bs).length / 49152 + 1) 1 = some (0, bs, ExitReason.streamEnd) := by
  have hclen : (modelCompress bs).length = 8 + bs.length := by
    simp [modelCompress, lenBytes_length]
  have hcb : ∀ b ∈ modelCompress bs, b < 256 := by
    intro b hbm
    rcases List.mem_append.mp hbm with h | h
    · exact lenBytes_lt bs.length b h
    · exact hb b h
  have hcne : modelCompress bs ≠ [] := by
    intro h
    have := congrArg List.length h
    rw [hclen] at this
    simp at this
  rw [decode_stream]
  by_cases hsm : (modelCompress bs).length ≤ 49152
  · have htake65 : (b64encode (modelCompress bs)).take 65536 = b64encode (modelCompress bs) :=
      List.take_of_length_le (by rw [b64encode_length]; omega)
    obtain ⟨v', hdec⟩ := g_base64_decode_step_encode (modelCompress bs) 0 hcne hcb
    have hstep : gStep gInit (modelCompress bs) 65536 =
        (1, (modelCompress bs).length, bs, ⟨some 0, []⟩) :=
      gStep_first_small bs.length hlen bs (by omega) rfl
    have hout : bs.take 65536 = bs := List.take_of_length_le (by omega)
    have hbs65 : ¬ bs.length = 65536 := by omega
    simp [decodeLoop, htake65, hdec, hcne, inflateLoop, hstep, hout, hbs65]
  · have hm1 : (b64encode (modelCompress bs)).take 65536 =
        b64encode ((modelCompress bs).take 49152) := b64encode_take_chunk _
    have hm1len : ((modelCompress bs).take 49152).length = 49152 := by
      simp
      omega
    have hm1ne : (modelCompress bs).take 49152 ≠ [] := by
      intro h
      rw [h] at hm1len
      simp at hm1len
    have hm1b : ∀ b ∈ (modelCompress bs).take 49152, b < 256 :=
      fun b h => hcb b (List.mem_of_mem_take h)
    obtain ⟨v', hdec⟩ := g_base64_decode_step_encode _ 0 hm1ne hm1b
    have hstep : gStep gInit ((modelCompress bs).take 49152) 65536 =
        ((if 8 + bs.length - 49152 = 0 then 1 else 0), 49152, bs.take 49144,
         ⟨some (8 + bs.length - 49152), []⟩) :=
      gStep_first_large bs.length hlen bs (by omega) rfl
    have hrem0 : ¬ (8 + bs.length - 49152 = 0) := by omega
    have htk2 : (bs.take 49144).take 65536 = bs.take 49144 := by
      rw [List.take_take, show min 65536 49144 = 49144 by norm_num]
    have htklen : ¬ (bs.take 49144).length = 65536 := by
      simp
      omega
    have hoff : (49152 ⊓ (modelCompress bs).length) * 4 / 3 = 65536 := by
      have : 49152 ⊓ (modelCompress bs).length = 49152 := by omega
      rw [this]
    have hcd : (modelCompress bs).drop 49152 = bs.drop 49144 := by
      show (lenBytes bs.length ++ bs).drop 49152 = bs.drop 49144
      rw [show (49152 : Nat) = 8 + 49144 from rfl, ← List.drop_drop,
        List.drop_left' (lenBytes_length bs.length)]
    have hdrop : (b64encode (modelCompress bs)).drop 65536 = b64encode (bs.drop 49144) := by
      rw [b64encode_drop_chunk, hcd]
    have hrem : 8 + bs.length - 49152 = (bs.drop 49144).length := by
      rw [List.length_drop]
      omega
    have hdrain := gLoop_drain ((modelCompress bs).length / 49152) (bs.drop 49144) v'
      (bs.take 49144)
      (by
        intro h
        have := congrArg List.length h
        simp at this
        omega)
      (fun b h => hb b (List.mem_of_mem_drop h))
      (by
        rw [hclen, List.length_drop]
        omega)
    simp only [decodeLoop, List.drop_zero, hm1, hdec, inflateLoop, hstep, htk2, htklen,
      hrem0, if_false, reduceIte, Bool.false_eq_true,
      show ¬ ((0 : Int) = 1) by omega,
      show ¬ ((modelCompress bs).take 49152).length = 0 by omega]
    norm_num
    rw [decodeLoop_shift gStep 1, hoff, hdrop, hrem, hdrain]
    simp

/-- Witness for C9: the round-trip instantiated at plaintext `[5, 6, 7]`
(whose encoding exercises the empty-padding group path). -/
theorem C9_decode_roundtrip_witness :
    (∀ b ∈ ([5, 6, 7] : List Nat), b < 256) ∧ ([5, 6, 7] : List Nat).length < 2 ^ 64 ∧
    decode_stream gStep gInit (b64encode (modelCompress [5, 6, 7]))
      ((modelCompress [5, 6, 7]).length / 49152 + 1) 1 =
      some (0, [5, 6, 7], ExitReason.streamEnd) :=
  ⟨by decide, by decide, C9_decode_roundtrip [5, 6, 7] (by decide) (by decide)⟩

/-! ## Claim C2 -/

/-- Claim C2 counterexample: on the empty payload the base64 input is
exhausted before the decompressor ever signals end-of-stream, yet the
decode loop returns 0 (success): the `break` on `avail_in == 0` leaves
`r = 0`, so `sub_download` reports success, not a `CompressionError`
(zlib's `Z_DATA_ERROR` = -3 / `Z_MEM_ERROR` = -4). -/
theorem C2_counterexample_exhaustion_returns_success :
    decode_stream gStep gInit [] 1 1 = some (0, [], ExitReason.exhausted) := by
  decide

/-- Claim C2 as amended: whenever the decode loop terminates because its
base64 input is exhausted without the decompressor having signalled
end-of-stream, it returns success (0) with the output written so far — it
does not fail with a `CompressionError`.  This holds for every
decompressor machine and every payload. -/
theorem C2_exhaustion_without_end_returns_success {σ : Type}
    (step : σ → List Nat → Nat → Int × Nat × List Nat × σ)
    (ifuel : Nat) (payload : List Nat) :
    ∀ (ofuel : Nat) (b64state : Int) (b64save offset : Nat) (s : σ)
      (acc : List Nat) (r : Int) (out : List Nat),
      decodeLoop step ifuel payload ofuel b64state b64save offset s acc =
        some (r, out, ExitReason.exhausted) → r = 0 := by
  intro ofuel
  induction ofuel with
  | zero =>
    intro _ _ _ _ _ _ _ h
    simp [decodeLoop] at h
  | succ f ih =>
    intro b64state b64save offset s acc r out h
    simp only [decodeLoop] at h
    split at h
    · simp only [Option.some.injEq, Prod.mk.injEq] at h
      exact h.1.symm
    · split at h
      · simp at h
      · split at h
        · simp at h
        · split at h
          · simp at h
          · exact ih _ _ _ _ _ _ _ h

/-- Witness for C2's amended theorem: instantiated at the empty payload
and the model decompressor. -/
theorem C2_exhaustion_witness :
    decodeLoop gStep 1 ([] : List Nat) 1 0 0 0 gInit [] =
      some (0, [], ExitReason.exhausted) ∧ (0 : Int) = 0 :=
  ⟨by decide,
   C2_exhaustion_without_end_returns_success gStep 1 [] 1 0 0 0 gInit [] 0 [] (by decide)⟩

/-! ## Claim C7 -/

/-- Claim C7: when the output path names an existing file (content
`content`), `sub_download` without `force_overwrite` fails with `EEXIST`
(17) and the file keeps its content (no bytes written; the check precedes
the download and the `fopen`); with `force_overwrite` the file's final
content is exactly the decode pipeline's output, independent of the prior
content. -/
theorem C7_overwrite_policy {σ : Type}
    (step : σ → List Nat → Nat → Int × Nat × List Nat × σ) (s0 : σ)
    (payload content : List Nat) (ofuel ifuel : Nat) :
    sub_download false (some content) step s0 payload ofuel ifuel =
      some (17, some content) ∧
    (∀ (r : Int) (out : List Nat) (reason : ExitReason),
      decode_stream step s0 payload ofuel ifuel = some (r, out, reason) →
      sub_download true (some content) step s0 payload ofuel ifuel =
        some (r, some out)) := by
  constructor
  · simp [sub_download]
  · intro r out reason h
    simp [sub_download, h]

/-- Witness for C7: existing content `[1,2,3]`, payload the encoding of
`[9]`: without force the call returns `EEXIST` and the content stays
`[1,2,3]`; with force the content becomes the pipeline's output `[9]`. -/
theorem C7_overwrite_witness :
    sub_download false (some [1, 2, 3]) gStep gInit
      (b64encode (modelCompress [9])) 1 1 = some (17, some [1, 2, 3]) ∧
    decode_stream gStep gInit (b64encode (modelCompress [9])) 1 1 =
      some (0, [9], ExitReason.streamEnd) ∧
    sub_download true (some [1, 2, 3]) gStep gInit
      (b64encode (modelCompress [9])) 1 1 = some (0, some [9]) :=
  ⟨(C7_overwrite_policy gStep gInit (b64encode (modelCompress [9])) [1, 2, 3] 1 1).1,
   by decide,
   (C7_overwrite_policy gStep gInit (b64encode (modelCompress [9])) [1, 2, 3] 1 1).2
     0 [9] ExitReason.streamEnd (by decide)⟩

end Sth
